import Mathlib

/-!
Verification of the alf audio-browser toolchain (Go sources) against its
natural-language specification.  The definitions below are shallow embeddings
of the corresponding Go functions; machine integers are modelled as `Nat`/`Int`
with explicit reduction modulo the word size, float arithmetic as exact `ℚ`
where the computations involved are exact, and external-tool results as
explicit parameters.
-/

namespace Alf

/-! ## SHA-256 (Go `crypto/sha256`, as used by `cacheFile`)

Bytes are `Nat < 256`, 32-bit words are `Nat < 2^32` with explicit `% 2^32`.
-/

def w32 : Nat := 4294967296

def rotr (n x : Nat) : Nat := ((x >>> n) ||| (x <<< (32 - n))) % w32

/-- The 64 SHA-256 round constants, written in decimal. -/
def shaK : List Nat :=
  [1116352408, 1899447441, 3049323471, 3921009573, 961987163,
   1508970993, 2453635748, 2870763221, 3624381080, 310598401,
   607225278, 1426881987, 1925078388, 2162078206, 2614888103,
   3248222580, 3835390401, 4022224774, 264347078, 604807628,
   770255983, 1249150122, 1555081692, 1996064986, 2554220882,
   2821834349, 2952996808, 3210313671, 3336571891, 3584528711,
   113926993, 338241895, 666307205, 773529912, 1294757372,
   1396182291, 1695183700, 1986661051, 2177026350, 2456956037,
   2730485921, 2820302411, 3259730800, 3345764771, 3516065817,
   3600352804, 4094571909, 275423344, 430227734, 506948616,
   659060556, 883997877, 958139571, 1322822218, 1537002063,
   1747873779, 1955562222, 2024104815, 2227730452, 2361852424,
   2428436474, 2756734187, 3204031479, 3329325298]

/-- The eight SHA-256 initial hash words, written in decimal. -/
def shaH0 : List Nat :=
  [1779033703, 3144134277, 1013904242, 2773480762,
   1359893119, 2600822924, 528734635, 1541459225]

def be64 (n : Nat) : List Nat :=
  [(n >>> 56) % 256, (n >>> 48) % 256, (n >>> 40) % 256, (n >>> 32) % 256,
   (n >>> 24) % 256, (n >>> 16) % 256, (n >>> 8) % 256, n % 256]

def be32 (n : Nat) : List Nat :=
  [(n >>> 24) % 256, (n >>> 16) % 256, (n >>> 8) % 256, n % 256]

/-- SHA-256 message padding: `0x80`, zeros to 56 mod 64, 64-bit bit length. -/
def padMsg (msg : List Nat) : List Nat :=
  msg ++ [0x80] ++ List.replicate ((119 - msg.length % 64) % 64) 0
      ++ be64 (8 * msg.length)

/-- Big-endian bytes to 32-bit words. -/
def toWords : List Nat → List Nat
  | a :: b :: c :: d :: rest => (((a * 256 + b) * 256 + c) * 256 + d) :: toWords rest
  | _ => []

/-- Split a byte list into 64-byte blocks (fuel = list length bound). -/
def chunk64 : Nat → List Nat → List (List Nat)
  | 0, _ => []
  | _, [] => []
  | fuel + 1, l => l.take 64 :: chunk64 fuel (l.drop 64)

def sSigma0 (x : Nat) : Nat := rotr 7 x ^^^ rotr 18 x ^^^ (x >>> 3)

def sSigma1 (x : Nat) : Nat := rotr 17 x ^^^ rotr 19 x ^^^ (x >>> 10)

def bSigma0 (x : Nat) : Nat := rotr 2 x ^^^ rotr 13 x ^^^ rotr 22 x

def bSigma1 (x : Nat) : Nat := rotr 6 x ^^^ rotr 11 x ^^^ rotr 25 x

def chF (x y z : Nat) : Nat := (x &&& y) ^^^ ((x ^^^ 0xffffffff) &&& z)

def majF (x y z : Nat) : Nat := (x &&& y) ^^^ (x &&& z) ^^^ (y &&& z)

/-- Message-schedule extension: append the next word `n` times. -/
def shaExtend : Nat → List Nat → List Nat
  | 0, ws => ws
  | n + 1, ws =>
      let l := ws.length
      let nxt := (sSigma1 (ws.getD (l - 2) 0) + ws.getD (l - 7) 0
                  + sSigma0 (ws.getD (l - 15) 0) + ws.getD (l - 16) 0) % w32
      shaExtend n (ws ++ [nxt])

/-- One SHA-256 round on the 8-word working state. -/
def roundStep (st : List Nat) (kw : Nat × Nat) : List Nat :=
  match st with
  | [a, b, c, d, e, f, g, h] =>
      let t1 := (h + bSigma1 e + chF e f g + kw.1 + kw.2) % w32
      let t2 := (bSigma0 a + majF a b c) % w32
      [(t1 + t2) % w32, a, b, c, (d + t1) % w32, e, f, g]
  | st => st

/-- Compress one 64-byte block into the hash state. -/
def compress (st : List Nat) (block : List Nat) : List Nat :=
  let ws := shaExtend 48 (toWords block)
  let st' := (shaK.zip ws).foldl roundStep st
  (st.zip st').map (fun p => (p.1 + p.2) % w32)

/-- SHA-256 digest (32 bytes) of a byte message. -/
def sha256Bytes (msg : List Nat) : List Nat :=
  let padded := padMsg msg
  ((chunk64 padded.length padded).foldl compress shaH0).foldr
    (fun word acc => be32 word ++ acc) []

def hexDigit (n : Nat) : Char := if n < 10 then Char.ofNat (48 + n) else Char.ofNat (87 + n)

def hexOfBytes (bs : List Nat) : String :=
  String.mk (bs.foldr (fun b acc => hexDigit (b / 16) :: hexDigit (b % 16) :: acc) [])

/-- UTF-8 encoding of one Unicode scalar value. -/
def utf8Char (n : Nat) : List Nat :=
  if n < 0x80 then [n]
  else if n < 0x800 then [0xC0 ||| (n >>> 6), 0x80 ||| (n &&& 0x3F)]
  else if n < 0x10000 then
    [0xE0 ||| (n >>> 12), 0x80 ||| ((n >>> 6) &&& 0x3F), 0x80 ||| (n &&& 0x3F)]
  else
    [0xF0 ||| (n >>> 18), 0x80 ||| ((n >>> 12) &&& 0x3F),
     0x80 ||| ((n >>> 6) &&& 0x3F), 0x80 ||| (n &&& 0x3F)]

def utf8Bytes (s : String) : List Nat :=
  s.data.foldr (fun c acc => utf8Char c.toNat ++ acc) []

/-- `fmt.Sprintf("%x", h[:8])` on the SHA-256 of a string: 16 lowercase hex
characters of the first 8 digest bytes. -/
def sha256Hex16 (s : String) : String :=
  hexOfBytes ((sha256Bytes (utf8Bytes s)).take 8)

/-! ## Go `path/filepath` (Unix): `Clean`, `Join`, `Abs`

Implemented over `List Char` by structural recursion so that the kernel can
evaluate them on concrete paths.
-/

/-- Split a character list on `'/'` (like `strings.Split` on "/"). -/
def splitSlash : List Char → List (List Char)
  | [] => [[]]
  | c :: rest =>
      if c = '/' then [] :: splitSlash rest
      else
        match splitSlash rest with
        | g :: gs => (c :: g) :: gs
        | [] => [[c]]

/-- Lexical path cleaning, Go `filepath.Clean` for Unix paths. -/
def cleanGo (path : String) : String :=
  if path.data = [] then "." else
  let rooted : Bool := match path.data with | '/' :: _ => true | _ => false
  let comps := (splitSlash path.data).filter (fun c => c ≠ [] ∧ c ≠ ['.'])
  let out := comps.foldl (fun acc c =>
      if c = ['.', '.'] then
        match acc with
        | [] => if rooted then [] else [['.', '.']]
        | a :: rest => if a = ['.', '.'] then c :: acc else rest
      else c :: acc) []
  let parts := out.reverse
  if parts = [] then (if rooted then "/" else ".")
  else String.mk ((if rooted then ['/'] else []) ++ (parts.intersperse ['/']).flatten)

/-- Go `filepath.Join` of two nonempty elements. -/
def joinGo (a b : String) : String := cleanGo (a ++ "/" ++ b)

/-- Go `filepath.Abs` with the working directory made explicit. -/
def absGo (wd path : String) : String :=
  match path.data with
  | '/' :: _ => cleanGo path
  | _ => joinGo wd path

/-! ## Cache-file key derivation

`alf-index` (`cmd/alf-index/main.go`): `cacheFile(dirpath)` hashes the
directory argument exactly as given; `main` passes `os.Args[1]` to it without
canonicalization.  `alf-list` (`cmd/alf-list/main.go`): `main` computes
`abs, _ := filepath.Abs(dirpath)` and hashes `abs`.  `xdg` stands for the
resolved cache root (`$XDG_CACHE_HOME`, or `~/.cache`).
-/

def indexCacheFile (xdg dirpath : String) : String :=
  joinGo (joinGo xdg "alf") (sha256Hex16 dirpath ++ ".tsv")

def listCacheFile (xdg wd dirpath : String) : String :=
  joinGo (joinGo xdg "alf") (sha256Hex16 (absGo wd dirpath) ++ ".tsv")

/-! ## Peak bucketing (`makePeaks` in the `aw` tool, `miniSparkline` in
`alf-list`)

Samples are Go `int16` values, modelled as `Int` with explicit wrapping where
the Go arithmetic wraps.  Go's `v = -v` on `int16` wraps: `-(-32768) = -32768`.
-/

/-- Reduce an integer into the `int16` range with two's-complement wrapping. -/
def wrap16 (x : Int) : Int := (x + 32768) % 65536 - 32768

/-- The absolute-value step of the peak loop: `if v < 0 { v = -v }` on `int16`,
whose negation wraps. -/
def absGo16 (v : Int) : Int := if v < 0 then wrap16 (-v) else v

/-- The inner peak loop: `var mx int16; for _, v := range chunk { if v < 0 { v = -v };
if v > mx { mx = v } }`. -/
def bucketMax (l : List Int) : Int :=
  l.foldl (fun mx v => let v2 := absGo16 v; if mx < v2 then v2 else mx) 0

/-- Go slice `samples[s:e]`. -/
def sliceGo (samples : List Int) (s e : Nat) : List Int :=
  (samples.drop s).take (e - s)

/-- `makePeaks` from the `aw` tool: `n == 0` yields `nil`; otherwise `width`
buckets with boundaries `i*n/width` under integer truncation. -/
def makePeaks (samples : List Int) (width : Nat) : List Int :=
  if samples.length = 0 then []
  else
    (List.range width).map (fun i =>
      bucketMax (sliceGo samples (i * samples.length / width)
        ((i + 1) * samples.length / width)))

/-- The bucket value as the claim words it: the maximum absolute sample
magnitude within the bucket's range (true mathematical absolute value),
0 for an empty range.  Stated from the spec for comparison with `makePeaks`. -/
def peaksSpec (samples : List Int) (width : Nat) : List Int :=
  (List.range width).map (fun i =>
    ((sliceGo samples (i * samples.length / width)
        ((i + 1) * samples.length / width)).map (fun v => |v|)).foldl max 0)

/-- Absolute value as the Go loop actually realises it on in-range `int16`
data: `-32768` wraps to itself and, being negative, never updates the running
maximum, so it contributes 0. -/
def clipAbs (v : Int) : Int := if v = -32768 then 0 else |v|

/-! ## Glyph rendering -/

def blocksL : List Char := ['▁', '▂', '▃', '▄', '▅', '▆', '▇', '█']

/-- `var mx int16; for _, p := range peaks { if p > mx { mx = p } };
if mx == 0 { mx = 1 }` — shared by all render modes. -/
def maxPeak (peaks : List Int) : Int :=
  let mx := peaks.foldl (fun mx p => if mx < p then p else mx) 0
  if mx = 0 then 1 else mx

/-- Sparkline glyphs from a peak list:
`blocks[int(lvl * float64(len(blocks)-1))]` with `lvl = p/maxP`.  Float
arithmetic is modelled as exact rational arithmetic; `int(..)` truncation on
the nonnegative values here is the rational floor. -/
def sparkGlyphs (peaks : List Int) : String :=
  let mx := maxPeak peaks
  String.mk (peaks.map (fun (p : Int) =>
    let lvl : ℚ := (p : ℚ) / (mx : ℚ)
    blocksL.getD ⌊lvl * 7⌋.toNat ' '))

/-- `renderSparkline` (the `aw` tool): the decoder result is `none` when the
external decoder is missing, fails, or produces fewer than 2 output bytes
(`decode` returns `nil` in all three cases); then the line is the lowest glyph
repeated `width` times, with no error signalled.  Only the sparkline component
of the Go function's `(spark, meta, dur)` result is modelled. -/
def renderSparkline (dec : Option (List Int)) (width : Nat) : String :=
  match dec with
  | none => String.mk (List.replicate width '▁')
  | some samples => sparkGlyphs (makePeaks samples width)

/-- `miniSparkline` from `cmd/alf-list/main.go`: same algorithm written out
inline (no `n == 0` guard — a successful decode yields at least one sample). -/
def miniSparkline (dec : Option (List Int)) (width : Nat) : String :=
  match dec with
  | none => String.mk (List.replicate width '▁')
  | some samples =>
      let n := samples.length
      let peaks := (List.range width).map (fun i =>
        bucketMax (sliceGo samples (i * n / width) ((i + 1) * n / width)))
      sparkGlyphs peaks

/-! ## Multi-row plot (`renderFull` row loop in the `aw` tool, `full` in the
Python `aw`)

The claim concerns the plot rows without position highlighting, i.e. the
`pos < 0` path where `split = -1` and each row is emitted without emphasis
markers.  The header line written before the rows is outside the claim. -/

/-- One cell of the multi-row plot: the body of the nested row/bucket loop. -/
def plotCell (mx : Int) (height row : Nat) (p : Int) : Char :=
  let level : ℚ := (p : ℚ) / (mx : ℚ) * (height : ℚ)
  if ((row : ℚ) + 1) ≤ level then '█'
  else if (row : ℚ) < level then
    blocksL.getD ⌊(level - (row : ℚ)) * 7⌋.toNat ' '
  else if row = 0 then '▁'
  else ' '

/-- One plot row (the `chars` array of one iteration). -/
def renderRow (peaks : List Int) (mx : Int) (height row : Nat) : String :=
  String.mk (peaks.map (plotCell mx height row))

/-- The row loop `for row := height - 1; row >= 0; row--`, writing `"\n"`
after every row except the last (`if row > 0`). -/
def plotLoop (peaks : List Int) (mx : Int) (height : Nat) : Nat → String
  | 0 => renderRow peaks mx height 0
  | r + 1 => renderRow peaks mx height (r + 1) ++ "\n" ++ plotLoop peaks mx height r

/-- The plot portion of `renderFull` (no position highlighting). -/
def renderPlot (peaks : List Int) (height : Nat) : String :=
  match height with
  | 0 => ""
  | h + 1 => plotLoop peaks (maxPeak peaks) (h + 1) h

/-- Newline-joining as the claim words it: rows joined by `"\n"` with no
newline after the last row. -/
def newlineJoin : List String → String
  | [] => ""
  | [r] => r
  | r :: rest => r ++ "\n" ++ newlineJoin rest

/-! ## Cache codec (read side)

The Go readers feed the cache file through `encoding/csv` with `Comma = '\t'`
and call `ReadAll`, discarding its error (`records, _ := r.ReadAll()`).  With
the default `FieldsPerRecord = 0`, the first record fixes the expected field
count and any later record with a different count makes `ReadAll` return
`(nil, ErrFieldCount)`.  `readAllGo` models exactly that on pre-split records
(fields contain no tabs, newlines or quotes, per the data-model invariant, so
line/field splitting is a bijection and is elided). -/

def readAllGo (recs : List (List String)) : Option (List (List String)) :=
  match recs with
  | [] => some []
  | r0 :: _ => if recs.all (fun r => r.length = r0.length) then some recs else none

structure CacheMeta where
  bpm : String
  pitch : String
  dur : String
  ch : String
  rate : String
  bits : String
  spark : String
deriving DecidableEq

/-- One line of the loop body of `readCache` (the sparkline-aware variant):
lines with fewer than 7 fields are skipped; field 7 (the sparkline) defaults
to the empty string when absent (`if len(rec) >= 8`). -/
def parseCacheLine (rec : List String) : Option (String × CacheMeta) :=
  if 7 ≤ rec.length then
    some (rec.headD "",
      { bpm := rec.getD 1 "", pitch := rec.getD 2 "", dur := rec.getD 3 "",
        ch := rec.getD 4 "", rate := rec.getD 5 "", bits := rec.getD 6 "",
        spark := rec.getD 7 "" })
  else none

/-- `readCache`: build the map from the records `ReadAll` produced (the empty
list when `ReadAll` errored, since the error is discarded).  Go map assignment
is modelled by consing the newest entry in front; `lookupCache` takes the
first (newest) binding. -/
def readCacheGo (recs : List (List String)) : List (String × CacheMeta) :=
  ((readAllGo recs).getD []).foldl (fun m rec =>
    match parseCacheLine rec with
    | some kv => kv :: m
    | none => m) []

def lookupCache (m : List (String × CacheMeta)) (k : String) : Option CacheMeta :=
  (m.find? (fun p => p.1 = k)).map (·.2)

/-! ## Sparkline reuse (`alf-list` main loop; `renderDir` in the `aw` tool) -/

/-- The per-entry sparkline selection in `cmd/alf-list/main.go`:
`var spark string; if m, ok := cache[name]; ok { if m.Spark != "" &&
len([]rune(m.Spark)) == *sparkW { spark = m.Spark } }; if spark == "" { spark
= miniSparkline(fpath, *sparkW) }`.  `fresh` stands for the
`miniSparkline(fpath, *sparkW)` result. -/
def chooseSpark (cached : Option CacheMeta) (sparkW : Nat) (fresh : String) : String :=
  let spark :=
    match cached with
    | some m => if m.spark ≠ "" ∧ m.spark.length = sparkW then m.spark else ""
    | none => ""
  if spark = "" then fresh else spark

/-- The sparkline glyphs placed in one directory-listing line by `renderDir`
in the `aw` tool.  The directory cache records `dcache` (as read by
`readDirCache`, which keeps only fields 1 and 2, BPM and pitch, of each
record) are passed to witness that the source computes the sparkline
exclusively as `renderSparkline(fpath, sparkW)` and never consults a stored
sparkline: the result does not depend on `dcache` or `f`. -/
def renderDirSpark (_dcache : List (List String)) (_f : String)
    (dec : Option (List Int)) (sparkW : Nat) : String :=
  renderSparkline dec sparkW

/-! ## Index pipeline (`cmd/alf-index/main.go` `main`) -/

structure Meta where
  file : String
  bpm : String
  pitch : String
  duration : String
  channels : String
  rate : String
  bits : String
deriving DecidableEq

structure DirEntry where
  name : String
  isDir : Bool
deriving DecidableEq

def audioExtL : List String :=
  [".wav", ".mp3", ".flac", ".ogg", ".aif", ".aiff", ".opus", ".m4a",
   ".wma", ".ape", ".wv", ".alac"]

/-- `filepath.Ext`: the suffix beginning at the final dot of the last path
element (names here contain no separator). -/
def extGo (name : String) : String :=
  match name.data.reverse.findIdx? (· = '.') with
  | some i => String.mk (name.data.drop (name.data.length - 1 - i))
  | none => ""

/-- `strings.ToLower` restricted to its ASCII case mapping (audio extensions
are ASCII). -/
def toLowerGo (s : String) : String :=
  String.mk (s.data.map (fun c =>
    if 'A' ≤ c ∧ c ≤ 'Z' then Char.ofNat (c.toNat + 32) else c))

/-- The enumeration filter: `!e.IsDir() && audioExt[strings.ToLower(filepath.Ext(e.Name()))]`. -/
def isAudioFile (e : DirEntry) : Bool :=
  !e.isDir && audioExtL.contains (toLowerGo (extGo e.name))

/-- The indexing run after directory enumeration, as a pure function: the
existing cache is the map `readCache` returned (`none` for absent names), and
`extract` stands for `indexFile` (whose external-tool results are summarised
as a function of the name).  `main` has two early returns on which
`writeCache` is never called and the cache file on disk is left exactly as it
was: no audio files in the listing (`"no audio files"`, exit 0) and an empty
selection (`"cache up to date"`, exit 0); both are modelled as `none`.
Otherwise the result is `some all`, the record list passed to `writeCache`,
which rewrites the cache file from scratch (`os.Create` truncates).  The
worker pool's merge loop (`for m := range results { existing[m.File] = m }`)
is order-independent — each selected name is extracted exactly once and keyed
by itself — and is modelled by a left fold. -/
def indexRun (entries : List DirEntry) (cache : String → Option Meta)
    (force : Bool) (extract : String → Meta) : Option (List Meta) :=
  let files := (entries.filter isAudioFile).map (·.name)
  let toIndex := files.filter (fun f => force || (cache f).isNone)
  if files = [] then none
  else if toIndex = [] then none
  else
    let merged := toIndex.foldl (fun m f => Function.update m f (some (extract f))) cache
    some (files.filterMap merged)

/-! ## BPM detection (`detectBPM` in `cmd/alf-index/main.go`)

Beat timestamps are float64 values parsed one per line; each line is modelled
as `Option ℚ` (`none` when `strconv.ParseFloat` fails), float arithmetic as
exact rational arithmetic (the claimed instances are exact in binary floating
point).  The final `fmt.Sprintf("%.0f", bpm)` formatting is outside the
claim; the numeric BPM (or `none` for the empty field) is modelled. -/

/-- `totalInterval / float64(len(beats)-1)` with
`totalInterval = beats[len-1] - beats[0]`. -/
def avgInterval (beats : List ℚ) : ℚ :=
  (beats.getLastD 0 - beats.headD 0) / ((beats.length - 1 : ℕ) : ℚ)

def detectBPM (lines : List (Option ℚ)) : Option ℚ :=
  if lines.length < 2 then none
  else
    let beats := lines.filterMap id
    if beats.length < 2 then none
    else if avgInterval beats ≤ 0 then none
    else some (60 / avgInterval beats)

/-! ## Playback session files (`stopCurrent` in `cmd/alf-play/main.go`) -/

inductive SessFile where
  | pid
  | pos
  | file
  | autoplay
deriving DecidableEq

/-- The session mailbox under `/tmp/alf`: contents of each well-known file,
`none` when absent. -/
def SessionStore : Type := SessFile → Option String

/-- `os.Remove` on one session file; its error (already-absent file) is
discarded by the caller. -/
def removeF (st : SessionStore) (f : SessFile) : SessionStore :=
  Function.update st f none

/-- `stopCurrent`: after signalling the previous controller (an external
effect on another process, not on the session files) it removes
`posFile, fileFile, pidFile` in that order, ignoring errors; the
`autoplayFile` is not touched.  Total — it cannot fail. -/
def stopCurrent (st : SessionStore) : SessionStore :=
  [SessFile.pos, SessFile.file, SessFile.pid].foldl removeF st

/-! ## Size formatting (`fmtSize` in `cmd/alf-list/main.go`)

`float64(b) / float64(1 << k)` is exact for `0 ≤ b < 2^53` (the division only
shifts the exponent), and Go's `%.1f` / `%.0f` print the correctly rounded
decimal with ties to even; so on that range the formatting is modelled
exactly by rational arithmetic with half-to-even rounding. -/

/-- Round to the nearest integer, ties to even. -/
def roundHalfEven (q : ℚ) : ℤ :=
  if q - ⌊q⌋ < 1 / 2 then ⌊q⌋
  else if 1 / 2 < q - ⌊q⌋ then ⌊q⌋ + 1
  else if ⌊q⌋ % 2 = 0 then ⌊q⌋ else ⌊q⌋ + 1

/-- Decimal digits of a natural number (fuel-driven). -/
def natDigits : Nat → Nat → List Char
  | 0, _ => []
  | fuel + 1, n => if n < 10 then [hexDigit n] else natDigits fuel (n / 10) ++ [hexDigit (n % 10)]

def natStr (n : Nat) : String := String.mk (natDigits (n + 1) n)

def intStr (i : ℤ) : String :=
  if i < 0 then "-" ++ natStr (-i).toNat else natStr i.toNat

/-- Go `fmt.Sprintf("%.<d>f", q)` for a nonnegative value exactly
representable in float64. -/
def fmtFixed (q : ℚ) (d : Nat) : String :=
  let n := (roundHalfEven (q * ((10 : ℚ) ^ d))).toNat
  if d = 0 then natStr n
  else
    let fracStr := natStr (n % 10 ^ d)
    natStr (n / 10 ^ d) ++ "." ++
      String.mk (List.replicate (d - fracStr.length) '0' ++ fracStr.data)

/-- `fmtSize` as written: `%.1fG`, `%.1fM`, `%.0fK`, `%dB`. -/
def fmtSize (b : ℤ) : String :=
  if 1073741824 ≤ b then fmtFixed ((b : ℚ) / 1073741824) 1 ++ "G"
  else if 1048576 ≤ b then fmtFixed ((b : ℚ) / 1048576) 1 ++ "M"
  else if 1024 ≤ b then fmtFixed ((b : ℚ) / 1024) 0 ++ "K"
  else intStr b ++ "B"

/-- Size formatting as the claim words it: one decimal place for every unit
except plain bytes — so `K` also gets one decimal.  Stated from the spec for
comparison with `fmtSize`. -/
def fmtSizeClaim (b : ℤ) : String :=
  if 1073741824 ≤ b then fmtFixed ((b : ℚ) / 1073741824) 1 ++ "G"
  else if 1048576 ≤ b then fmtFixed ((b : ℚ) / 1048576) 1 ++ "M"
  else if 1024 ≤ b then fmtFixed ((b : ℚ) / 1024) 1 ++ "K"
  else intStr b ++ "B"

/-! # Theorems -/

/-! ## C1 — cache-key derivation -/

/-- C1: the claim says the cache key is the digest of the canonicalized
absolute directory path for every operation, so that indexing and listing the
same directory use the same cache file regardless of spelling.  The code
diverges: `alf-index` hashes its directory argument as given while `alf-list`
hashes `filepath.Abs` of it.  With working directory `/home/u` and cache root
`/home/u/.cache`, running both on the relative argument `samples` (the same
directory) addresses two different cache files, and the two spellings of the
same directory give `alf-index` two different cache files. -/
theorem cacheKey_divergence :
    indexCacheFile "/home/u/.cache" "samples"
        = "/home/u/.cache/alf/24baa7a731ce04b4.tsv" ∧
    listCacheFile "/home/u/.cache" "/home/u" "samples"
        = "/home/u/.cache/alf/ef781072c16ae01c.tsv" ∧
    indexCacheFile "/home/u/.cache" "samples"
        ≠ listCacheFile "/home/u/.cache" "/home/u" "samples" ∧
    indexCacheFile "/home/u/.cache" "samples"
        ≠ indexCacheFile "/home/u/.cache" "/home/u/samples" :=
  ⟨by decide, by decide, by decide, by decide⟩

/-! ## C2 — peak bucketing -/

/-- C2, counterexample: the claim says each bucket's value is the maximum
absolute sample magnitude in its range, but for the minimum `int16` sample
`-32768` the Go negation wraps (`-(-32768) = -32768` in two's complement), the
wrapped value stays negative and never updates the running maximum, so the
bucket reports 0 instead of 32768. -/
theorem makePeaks_claim_counterexample :
    makePeaks [-32768] 1 = [0] ∧ peaksSpec [-32768] 1 = [32768] ∧
    makePeaks [-32768] 1 ≠ peaksSpec [-32768] 1 :=
  ⟨by decide, by decide, by decide⟩

theorem absStep_eq_max (mx : Int) (hmx : 0 ≤ mx) (v : Int)
    (hv : -32768 ≤ v ∧ v ≤ 32767) :
    (if mx < absGo16 v then absGo16 v else mx) = max mx (clipAbs v) := by
  obtain ⟨hlo, hhi⟩ := hv
  unfold absGo16 clipAbs wrap16
  by_cases h0 : v = -32768
  · subst h0
    have hw : ((-(-32768 : ℤ) + 32768) % 65536 - 32768) = -32768 := by decide
    rw [if_pos (by decide : (-32768 : ℤ) < 0), hw, if_pos rfl,
      if_neg (by omega : ¬ mx < -32768), max_eq_left hmx]
  · by_cases hneg : v < 0
    · have h1 : (- v + 32768) % 65536 - 32768 = - v := by omega
      rw [if_pos hneg, if_neg h0, h1, abs_of_neg hneg]
      rcases le_or_lt (-v) mx with h | h
      · rw [if_neg (not_lt.mpr h), max_eq_left h]
      · rw [if_pos h, max_eq_right h.le]
    · have hvn : 0 ≤ v := not_lt.mp hneg
      rw [if_neg hneg, if_neg h0, abs_of_nonneg hvn]
      rcases le_or_lt v mx with h | h
      · rw [if_neg (not_lt.mpr h), max_eq_left h]
      · rw [if_pos h, max_eq_right h.le]

theorem bucketMax_foldl_eq (l : List Int) :
    ∀ mx : Int, 0 ≤ mx → (∀ v ∈ l, -32768 ≤ v ∧ v ≤ 32767) →
      l.foldl (fun mx v => let v2 := absGo16 v; if mx < v2 then v2 else mx) mx
        = (l.map clipAbs).foldl max mx := by
  induction l with
  | nil => intro mx _ _; rfl
  | cons a t ih =>
      intro mx hmx hr
      simp only [List.foldl_cons, List.map_cons]
      rw [show (let v2 := absGo16 a; if mx < v2 then v2 else mx)
            = max mx (clipAbs a) from absStep_eq_max mx hmx a (hr a (List.mem_cons_self a t))]
      exact ih (max mx (clipAbs a)) (le_trans hmx (le_max_left _ _))
        (fun v hv => hr v (List.mem_cons_of_mem _ hv))

theorem bucketMax_eq_clip (l : List Int)
    (hr : ∀ v ∈ l, -32768 ≤ v ∧ v ≤ 32767) :
    bucketMax l = (l.map clipAbs).foldl max 0 :=
  bucketMax_foldl_eq l 0 le_rfl hr

/-- C2, amended: for every nonempty `int16` sample list and width `W > 0`,
`makePeaks` produces exactly `W` buckets with the claimed truncated-division
boundaries, and each bucket holds the maximum over its range of the absolute
sample magnitudes — except that the minimum sample value `-32768` contributes
`0` (its two's-complement negation overflows); an empty range yields 0. -/
theorem makePeaks_amended (samples : List Int) (width : Nat)
    (hne : samples ≠ []) (hr : ∀ v ∈ samples, -32768 ≤ v ∧ v ≤ 32767) :
    (makePeaks samples width).length = width ∧
    ∀ i, i < width →
      (makePeaks samples width)[i]? =
        some (((sliceGo samples (i * samples.length / width)
          ((i + 1) * samples.length / width)).map clipAbs).foldl max 0) := by
  have hlen : ¬ samples.length = 0 := by
    simpa [List.length_eq_zero] using hne
  unfold makePeaks
  rw [if_neg hlen]
  constructor
  · simp
  · intro i hi
    rw [List.getElem?_map, List.getElem?_range hi, Option.map_some']
    refine congrArg some ?_
    refine bucketMax_eq_clip _ (fun v hv => hr v ?_)
    exact List.drop_subset _ _ (List.take_subset _ _ (by simpa [sliceGo] using hv))

/-- C2 witness: the amended theorem applied to the concrete samples
`[-32768, 5, -7]` at width 4 (wider than the sample count, so empty buckets
arise). -/
theorem makePeaks_amended_witness :
    (makePeaks [-32768, 5, -7] 4).length = 4 ∧
    (makePeaks [-32768, 5, -7] 4)[0]? =
      some (((sliceGo [-32768, 5, -7] (0 * 3 / 4) (1 * 3 / 4)).map clipAbs).foldl max 0) :=
  ⟨(makePeaks_amended [-32768, 5, -7] 4 (by decide) (by decide)).1,
   (makePeaks_amended [-32768, 5, -7] 4 (by decide) (by decide)).2 0 (by decide)⟩

/-! ## C3 — BPM from beat timestamps -/

/-- C3: with at least two parsed beats, the BPM is `60 / avg` where `avg` is
the full span between first and last beat divided by `count - 1`; a
non-positive average yields the empty field (`none`), as does fewer than two
parsed beats (in particular a single beat).  The spec's example
`[1.0, 1.5, 2.0, 2.5] ⇒ 120` is the witness below. -/
theorem detectBPM_spec (lines : List (Option ℚ)) :
    (2 ≤ (lines.filterMap id).length →
      detectBPM lines =
        if avgInterval (lines.filterMap id) ≤ 0 then none
        else some (60 / avgInterval (lines.filterMap id))) ∧
    ((lines.filterMap id).length < 2 → detectBPM lines = none) := by
  constructor
  · intro h2
    have hl : ¬ lines.length < 2 := by
      have := List.length_filterMap_le id lines
      omega
    unfold detectBPM
    rw [if_neg hl, if_neg (by omega : ¬ (lines.filterMap id).length < 2)]
  · intro h
    unfold detectBPM
    by_cases hl : lines.length < 2
    · rw [if_pos hl]
    · rw [if_neg hl, if_pos h]

/-- C3 witness: beats 1.0, 1.5, 2.0, 2.5 give average interval 0.5 s and
BPM 120; a single beat gives the empty field. -/
theorem detectBPM_witness :
    detectBPM [some 1, some (3 / 2), some 2, some (5 / 2)] = some 120 ∧
    detectBPM [some 1] = none := by
  constructor
  · rw [(detectBPM_spec [some 1, some (3 / 2), some 2, some (5 / 2)]).1 (by decide)]
    have hfm : List.filterMap id [some (1 : ℚ), some (3 / 2), some 2, some (5 / 2)]
        = [1, 3 / 2, 2, 5 / 2] := rfl
    rw [hfm]
    have hav : avgInterval [(1 : ℚ), 3 / 2, 2, 5 / 2] = 1 / 2 := by
      have h1 : List.getLastD [(1 : ℚ), 3 / 2, 2, 5 / 2] 0 = 5 / 2 := rfl
      have h2 : List.headD [(1 : ℚ), 3 / 2, 2, 5 / 2] 0 = 1 := rfl
      have h3 : ([(1 : ℚ), 3 / 2, 2, 5 / 2].length - 1 : ℕ) = 3 := rfl
      unfold avgInterval
      rw [h1, h2, h3]
      norm_num
    rw [hav, if_neg (by norm_num)]
    norm_num
  · exact (detectBPM_spec [some 1]).2 (by decide)

/-! ## C8 — stop is unconditional and idempotent -/

/-- C8: `stopCurrent` removes the pid, pos and file session files
unconditionally (`os.Remove` errors are discarded, so it succeeds with no
active session), a second call on the already-cleared state changes nothing
and errors nothing (the operation is total), and the standalone autoplay flag
file is left untouched. -/
theorem stopCurrent_spec (st : SessionStore) :
    stopCurrent (stopCurrent st) = stopCurrent st ∧
    stopCurrent st SessFile.pid = none ∧
    stopCurrent st SessFile.pos = none ∧
    stopCurrent st SessFile.file = none ∧
    stopCurrent st SessFile.autoplay = st SessFile.autoplay :=
  ⟨funext fun f => by cases f <;> rfl, rfl, rfl, rfl, rfl⟩

/-! ## C10 — sparklines of silent or undecodable files -/

theorem foldl_max_replicate_zero (k : Nat) :
    (List.replicate k (0 : ℤ)).foldl max 0 = 0 := by
  induction k with
  | zero => rfl
  | succ n ih => simpa [List.replicate_succ] using ih

theorem bucketMax_replicate_zero (k : Nat) :
    bucketMax (List.replicate k (0 : ℤ)) = 0 := by
  rw [bucketMax_eq_clip _ (by
    intro v hv
    rw [List.eq_of_mem_replicate hv]
    norm_num)]
  rw [List.map_replicate, show clipAbs 0 = 0 by decide]
  exact foldl_max_replicate_zero k

theorem bucketMax_slice_zero (n s e : Nat) :
    bucketMax (sliceGo (List.replicate n (0 : ℤ)) s e) = 0 := by
  simp only [sliceGo, List.drop_replicate, List.take_replicate]
  exact bucketMax_replicate_zero _

theorem map_bucketMax_zero (n width : Nat) (f g : Nat → Nat) :
    (List.range width).map
        (fun i => bucketMax (sliceGo (List.replicate n (0 : ℤ)) (f i) (g i)))
      = List.replicate width 0 := by
  refine List.eq_replicate_iff.mpr ⟨by simp, ?_⟩
  intro b hb
  obtain ⟨i, _, rfl⟩ := List.mem_map.mp hb
  exact bucketMax_slice_zero n (f i) (g i)

theorem makePeaks_zero (n width : Nat) (hn : 0 < n) :
    makePeaks (List.replicate n (0 : ℤ)) width = List.replicate width 0 := by
  unfold makePeaks
  rw [if_neg (by simp; omega)]
  exact map_bucketMax_zero n width _ _

theorem maxPeak_replicate_zero (width : Nat) :
    maxPeak (List.replicate width (0 : ℤ)) = 1 := by
  simp only [maxPeak]
  have hmx : (List.replicate width (0 : ℤ)).foldl (fun mx p => if mx < p then p else mx) 0 = 0 := by
    induction width with
    | zero => rfl
    | succ n ih => simpa [List.replicate_succ] using ih
  rw [hmx]
  norm_num

theorem sparkGlyphs_zero (width : Nat) :
    sparkGlyphs (List.replicate width (0 : ℤ)) = String.mk (List.replicate width '▁') := by
  have h : blocksL.getD ⌊((0 : ℤ) : ℚ) / ((1 : ℤ) : ℚ) * 7⌋.toNat ' ' = '▁' := by
    have hidx : ⌊((0 : ℤ) : ℚ) / ((1 : ℤ) : ℚ) * 7⌋.toNat = 0 := by norm_num
    rw [hidx]
    rfl
  simp only [sparkGlyphs, maxPeak_replicate_zero, List.map_replicate]
  rw [h]

/-- C10: when the decode step yields no samples (decoder missing, decoder
failure, or output shorter than one sample — all of which make `decode`
return `nil`), both sparkline renderers return the lowest glyph repeated
exactly `width` times, without signalling any error to the caller (both
functions are total); and that output is identical to the one produced for an
all-silent file of `n` zero samples. -/
theorem sparkline_silence (width n : Nat) (hn : 0 < n) :
    renderSparkline none width = String.mk (List.replicate width '▁') ∧
    miniSparkline none width = String.mk (List.replicate width '▁') ∧
    renderSparkline (some (List.replicate n (0 : ℤ))) width = renderSparkline none width ∧
    miniSparkline (some (List.replicate n (0 : ℤ))) width = miniSparkline none width := by
  refine ⟨rfl, rfl, ?_, ?_⟩
  · show sparkGlyphs (makePeaks (List.replicate n (0 : ℤ)) width)
        = String.mk (List.replicate width '▁')
    rw [makePeaks_zero n width hn, sparkGlyphs_zero]
  · show sparkGlyphs ((List.range width).map _)
        = String.mk (List.replicate width '▁')
    rw [map_bucketMax_zero n width _ _, sparkGlyphs_zero]

/-- C10 witness: the theorem at width 4 on a 3-sample silent decode. -/
theorem sparkline_silence_witness :
    renderSparkline (some (List.replicate 3 (0 : ℤ))) 4 = renderSparkline none 4 :=
  (sparkline_silence 4 3 (by decide)).2.2.1

/-! ## C9 — byte-size formatting -/

/-- C9, counterexample: the claim says every unit except plain bytes is
rendered with one decimal place, but the code renders K with `%.0f` — no
decimal place.  1536 bytes is exactly 1.5K: the claim demands "1.5K", the
code prints "2K" (1.5 rounded half-to-even). -/
theorem fmtSize_counterexample :
    fmtSize 1536 = "2K" ∧ fmtSizeClaim 1536 = "1.5K" ∧
    fmtSize 1536 ≠ fmtSizeClaim 1536 := by
  have h0 : roundHalfEven (((1536 : ℤ) : ℚ) / 1024 * (10 : ℚ) ^ (0 : ℕ)) = 2 := by
    unfold roundHalfEven
    norm_num
  have h1 : roundHalfEven (((1536 : ℤ) : ℚ) / 1024 * (10 : ℚ) ^ (1 : ℕ)) = 15 := by
    unfold roundHalfEven
    norm_num
  have hf0 : fmtFixed (((1536 : ℤ) : ℚ) / 1024) 0 = "2" := by
    simp only [fmtFixed]
    rw [h0]
    decide
  have hf1 : fmtFixed (((1536 : ℤ) : ℚ) / 1024) 1 = "1.5" := by
    simp only [fmtFixed]
    rw [h1]
    decide
  refine ⟨?_, ?_, ?_⟩
  · unfold fmtSize
    rw [if_neg (by decide), if_neg (by decide), if_pos (by decide), hf0]
    decide
  · unfold fmtSizeClaim
    rw [if_neg (by decide), if_neg (by decide), if_pos (by decide), hf1]
    decide
  · unfold fmtSize fmtSizeClaim
    rw [if_neg (by decide), if_neg (by decide), if_pos (by decide), hf0,
      if_neg (by decide), if_neg (by decide), if_pos (by decide), hf1]
    decide

/-- C9, amended: sizes are formatted in binary (1024-based) units chosen by
magnitude, with one decimal place for G and M, *no* decimal places for K
(rounded to nearest, ties to even), and plain integer bytes.  `fmtFixed`
models Go `%.<d>f` exactly for values exact in float64, whence the `2^53`
bound on `b`. -/
theorem fmtSize_amended (b : ℤ) (h53 : b < 9007199254740992) :
    (1073741824 ≤ b → fmtSize b = fmtFixed ((b : ℚ) / 1073741824) 1 ++ "G") ∧
    (1048576 ≤ b → b < 1073741824 → fmtSize b = fmtFixed ((b : ℚ) / 1048576) 1 ++ "M") ∧
    (1024 ≤ b → b < 1048576 → fmtSize b = fmtFixed ((b : ℚ) / 1024) 0 ++ "K") ∧
    (b < 1024 → fmtSize b = intStr b ++ "B") := by
  unfold fmtSize
  refine ⟨?_, ?_, ?_, ?_⟩
  · intro h
    rw [if_pos h]
  · intro h1 h2
    rw [if_neg (by omega), if_pos h1]
  · intro h1 h2
    rw [if_neg (by omega), if_neg (by omega), if_pos h1]
  · intro h
    rw [if_neg (by omega), if_neg (by omega), if_neg (by omega)]

/-- C9 witness: the amended theorem applied at 1536 bytes. -/
theorem fmtSize_amended_witness :
    fmtSize 1536 = fmtFixed (((1536 : ℤ) : ℚ) / 1024) 0 ++ "K" :=
  (fmtSize_amended 1536 (by decide)).2.2.1 (by decide) (by decide)

/-! ## C5 — sparkline reuse -/

/-- C5, counterexample: the claim says any renderer call with a
DirectoryCache available reuses a stored sparkline exactly when its glyph
count equals the requested width.  The directory renderer `renderDir` never
does: its `readDirCache` keeps only BPM and pitch, and the sparkline is
always recomputed by `renderSparkline`.  Here the cache stores a 20-glyph
sparkline (all full blocks), the requested width is 20, yet the rendered
sparkline is the freshly computed one (all-low glyphs for the silent decode),
not the stored string. -/
theorem sparkReuse_counterexample :
    (String.mk (List.replicate 20 '█')).length = 20 ∧
    renderDirSpark [["f.wav", "", "", "", "", "", "", String.mk (List.replicate 20 '█')]]
        "f.wav" (some [0, 0]) 20 = String.mk (List.replicate 20 '▁') ∧
    String.mk (List.replicate 20 '▁') ≠ String.mk (List.replicate 20 '█') := by
  refine ⟨by decide, ?_, by decide⟩
  show renderSparkline (some [0, 0]) 20 = String.mk (List.replicate 20 '▁')
  rw [show ([0, 0] : List Int) = List.replicate 2 0 from rfl]
  show sparkGlyphs (makePeaks (List.replicate 2 (0 : ℤ)) 20) = String.mk (List.replicate 20 '▁')
  rw [makePeaks_zero 2 20 (by decide), sparkGlyphs_zero]

/-- C5, amended: the listing command (`alf-list`) reuses a stored sparkline
exactly when it is nonempty and its glyph count equals the requested width,
and otherwise falls back to the freshly computed one; the directory preview
renderer (`renderDir` in the `aw` tool) never reuses a stored sparkline — it
always decodes and recomputes, whatever the cache holds. -/
theorem sparkReuse_amended (m : CacheMeta) (sparkW : Nat) (fresh : String) :
    chooseSpark (some m) sparkW fresh =
      (if m.spark ≠ "" ∧ m.spark.length = sparkW then m.spark else fresh) ∧
    chooseSpark none sparkW fresh = fresh ∧
    ∀ (dcache : List (List String)) (f : String) (dec : Option (List Int)),
      renderDirSpark dcache f dec sparkW = renderSparkline dec sparkW := by
  refine ⟨?_, rfl, fun _ _ _ => rfl⟩
  simp only [chooseSpark]
  by_cases hc : m.spark ≠ "" ∧ m.spark.length = sparkW
  · rw [if_pos hc, if_pos hc, if_neg hc.1]
  · rw [if_neg hc, if_neg hc, if_pos rfl]

/-! ## C4 — tolerant cache decoding -/

/-- C4, counterexample: the claim says a line with too few fields is skipped
while every other line still loads.  But `encoding/csv` with the default
`FieldsPerRecord` makes `ReadAll` return `(nil, ErrFieldCount)` as soon as any
record's field count differs from the first record's, and the error is
discarded — so one short line makes the whole load come back empty.  With
only the well-formed line the record loads; adding the 1-field line `bad`
makes the well-formed record disappear too. -/
theorem readCache_claim_counterexample :
    lookupCache (readCacheGo
        [["a.wav", "120", "440", "0:03", "2", "44100", "16"], ["bad"]]) "a.wav" = none ∧
    lookupCache (readCacheGo
        [["a.wav", "120", "440", "0:03", "2", "44100", "16"]]) "a.wav" ≠ none :=
  ⟨by decide, by decide⟩

theorem readAllGo_of_uniform (recs : List (List String))
    (h : ∀ r ∈ recs, r.length = (recs.headD []).length) :
    readAllGo recs = some recs := by
  cases recs with
  | nil => rfl
  | cons r0 t =>
      simp only [readAllGo, List.headD_cons] at h ⊢
      rw [if_pos]
      rw [List.all_eq_true]
      intro r hr
      simpa using h r hr

theorem readCache_foldl_collect (recs : List (List String))
    (acc : List (String × CacheMeta)) :
    recs.foldl (fun m rec =>
        match parseCacheLine rec with
        | some kv => kv :: m
        | none => m) acc
      = (recs.filterMap parseCacheLine).reverse ++ acc := by
  induction recs generalizing acc with
  | nil => simp
  | cons r t ih =>
      simp only [List.foldl_cons, List.filterMap_cons]
      cases hpr : parseCacheLine r with
      | none => simp [ih]
      | some kv => simp [ih]

theorem readCacheGo_of_uniform (recs : List (List String))
    (h : ∀ r ∈ recs, r.length = (recs.headD []).length) :
    readCacheGo recs = (recs.filterMap parseCacheLine).reverse := by
  unfold readCacheGo
  rw [readAllGo_of_uniform recs h]
  simpa using readCache_foldl_collect recs []

theorem parseCacheLine_key (rec : List String) (k : String) (m : CacheMeta)
    (h : parseCacheLine rec = some (k, m)) :
    k = rec.headD "" ∧ 7 ≤ rec.length := by
  unfold parseCacheLine at h
  by_cases h7 : 7 ≤ rec.length
  · rw [if_pos h7] at h
    simp only [Option.some.injEq, Prod.mk.injEq] at h
    exact ⟨h.1.symm, h7⟩
  · rw [if_neg h7] at h
    exact absurd h (by simp)

theorem find?_of_nodup_keys (l : List (String × CacheMeta))
    (hnd : (l.map Prod.fst).Nodup) (k : String) (m : CacheMeta)
    (hm : (k, m) ∈ l) :
    l.find? (fun p => p.1 = k) = some (k, m) := by
  induction l with
  | nil => exact absurd hm (List.not_mem_nil _)
  | cons a t ih =>
      rw [List.map_cons, List.nodup_cons] at hnd
      rcases List.mem_cons.mp hm with h | h
      · rw [← h]
        exact List.find?_cons_of_pos _ (by simp)
      · have hak : a.1 ≠ k := by
          intro hak
          exact hnd.1 (by
            rw [hak]
            exact List.mem_map.mpr ⟨(k, m), h, rfl⟩)
        rw [List.find?_cons_of_neg _ (by simpa using hak)]
        exact ih hnd.2 h

theorem filterMap_keys_eq (recs : List (List String)) :
    recs.filterMap (fun r => (parseCacheLine r).map Prod.fst)
      = (recs.filter (fun r => 7 ≤ r.length)).map (fun r => r.headD "") := by
  induction recs with
  | nil => rfl
  | cons r t ih =>
      rw [List.filterMap_cons, List.filter_cons]
      by_cases h7 : 7 ≤ r.length
      · have hhd : (parseCacheLine r).map Prod.fst = some (r.headD "") := by
          unfold parseCacheLine
          rw [if_pos h7]
          rfl
        rw [hhd]
        simp [h7, ih]
      · have hhd : (parseCacheLine r).map Prod.fst = none := by
          unfold parseCacheLine
          rw [if_neg h7]
          rfl
        rw [hhd]
        simp [h7, ih]

/-- C4, amended: per-line tolerance holds only for files whose lines all have
the same field count (so `ReadAll` succeeds): then a line with fewer than 7
fields is skipped, a line with at least 7 fields is loaded with its fields in
order, and a legacy 7-field line (no trailing sparkline field) decodes with
the sparkline defaulted to empty.  A line whose field count differs from the
first line's makes the whole load return an empty cache (counterexample
above).  Keys are assumed distinct, as the index writer guarantees. -/
theorem readCache_amended (recs : List (List String))
    (huni : ∀ r ∈ recs, r.length = (recs.headD []).length)
    (hnd : (recs.map (fun r => r.headD "")).Nodup) :
    ∀ rec ∈ recs,
      (rec.length < 7 → lookupCache (readCacheGo recs) (rec.headD "") = none) ∧
      (7 ≤ rec.length → lookupCache (readCacheGo recs) (rec.headD "") =
        some { bpm := rec.getD 1 "", pitch := rec.getD 2 "", dur := rec.getD 3 "",
               ch := rec.getD 4 "", rate := rec.getD 5 "", bits := rec.getD 6 "",
               spark := rec.getD 7 "" }) ∧
      (rec.length = 7 →
        ∃ mm, lookupCache (readCacheGo recs) (rec.headD "") = some mm ∧ mm.spark = "") := by
  intro rec hrec
  rw [readCacheGo_of_uniform recs huni]
  have hkeys : (((recs.filterMap parseCacheLine).reverse).map Prod.fst).Nodup := by
    rw [List.map_reverse, List.nodup_reverse, List.map_filterMap, filterMap_keys_eq]
    exact hnd.sublist ((List.filter_sublist _).map _)
  have hsome : 7 ≤ rec.length →
      lookupCache ((recs.filterMap parseCacheLine).reverse) (rec.headD "") =
        some { bpm := rec.getD 1 "", pitch := rec.getD 2 "", dur := rec.getD 3 "",
               ch := rec.getD 4 "", rate := rec.getD 5 "", bits := rec.getD 6 "",
               spark := rec.getD 7 "" } := by
    intro h7
    have hparse : parseCacheLine rec = some (rec.headD "",
        { bpm := rec.getD 1 "", pitch := rec.getD 2 "", dur := rec.getD 3 "",
          ch := rec.getD 4 "", rate := rec.getD 5 "", bits := rec.getD 6 "",
          spark := rec.getD 7 "" }) := by
      unfold parseCacheLine
      rw [if_pos h7]
    unfold lookupCache
    rw [find?_of_nodup_keys _ hkeys _ _
      (List.mem_reverse.mpr (List.mem_filterMap.mpr ⟨rec, hrec, hparse⟩))]
    rfl
  refine ⟨?_, hsome, ?_⟩
  · intro hlt
    unfold lookupCache
    rw [List.find?_eq_none.mpr, Option.map_none']
    intro p hp hpk
    obtain ⟨rec', hrec', hparse⟩ := List.mem_filterMap.mp (List.mem_reverse.mp hp)
    obtain ⟨hk, h7⟩ := parseCacheLine_key rec' p.1 p.2 (by simpa using hparse)
    have hheads : rec'.headD "" = rec.headD "" := by
      rw [← hk]
      simpa using hpk
    have heq : rec' = rec := List.inj_on_of_nodup_map hnd hrec' hrec hheads
    rw [heq] at h7
    omega
  · intro h7
    exact ⟨_, hsome (by omega), List.getD_eq_default _ _ (by omega)⟩

/-- C4 witness: the amended theorem on a uniform two-line legacy (7-field)
cache: the first record loads with the sparkline defaulted to empty. -/
theorem readCache_amended_witness :
    lookupCache (readCacheGo [["a.wav", "1", "2", "3", "4", "5", "6"],
        ["b.wav", "9", "8", "7", "6", "5", "4"]]) "a.wav" =
      some { bpm := "1", pitch := "2", dur := "3", ch := "4", rate := "5",
             bits := "6", spark := "" } :=
  (readCache_amended
      [["a.wav", "1", "2", "3", "4", "5", "6"], ["b.wav", "9", "8", "7", "6", "5", "4"]]
      (by decide) (by decide)
      ["a.wav", "1", "2", "3", "4", "5", "6"] (by decide)).2.1 (by decide)

/-! ## C6 — multi-row plot -/

theorem plotCell_claim (mx : Int) (height row : Nat) (p : Int) :
    plotCell mx height row p =
      (if ((row : ℚ) + 1) ≤ (p : ℚ) / (mx : ℚ) * (height : ℚ) then '█'
       else if ((row : ℚ) < (p : ℚ) / (mx : ℚ) * (height : ℚ) ∧
           (p : ℚ) / (mx : ℚ) * (height : ℚ) < (row : ℚ) + 1) then
         blocksL.getD ⌊((p : ℚ) / (mx : ℚ) * (height : ℚ) - (row : ℚ)) * 7⌋.toNat ' '
       else if row = 0 then '▁' else ' ') := by
  simp only [plotCell]
  by_cases h1 : ((row : ℚ) + 1) ≤ (p : ℚ) / (mx : ℚ) * (height : ℚ)
  · rw [if_pos h1, if_pos h1]
  · rw [if_neg h1, if_neg h1]
    have hlt : (p : ℚ) / (mx : ℚ) * (height : ℚ) < (row : ℚ) + 1 := not_le.mp h1
    by_cases h2 : (row : ℚ) < (p : ℚ) / (mx : ℚ) * (height : ℚ)
    · rw [if_pos h2, if_pos ⟨h2, hlt⟩]
    · have h3 : ¬((row : ℚ) < (p : ℚ) / (mx : ℚ) * (height : ℚ) ∧
          (p : ℚ) / (mx : ℚ) * (height : ℚ) < (row : ℚ) + 1) := fun hc => h2 hc.1
      rw [if_neg h2, if_neg h3]

theorem newlineJoin_cons (a : String) (l : List String) (h : l ≠ []) :
    newlineJoin (a :: l) = a ++ "\n" ++ newlineJoin l := by
  cases l with
  | nil => exact absurd rfl h
  | cons b t => rfl

theorem plotLoop_spec (peaks : List Int) (mx : Int) (h : Nat) (r : Nat) :
    plotLoop peaks mx h r
      = newlineJoin (((List.range (r + 1)).reverse).map (renderRow peaks mx h)) := by
  induction r with
  | zero => rfl
  | succ n ih =>
      have hr : ((List.range (n + 1 + 1)).reverse).map (renderRow peaks mx h)
          = renderRow peaks mx h (n + 1)
            :: ((List.range (n + 1)).reverse).map (renderRow peaks mx h) := by
        rw [List.range_succ, List.reverse_append]
        simp
      rw [show plotLoop peaks mx h (n + 1)
          = renderRow peaks mx h (n + 1) ++ "\n" ++ plotLoop peaks mx h n from rfl, ih,
        hr, newlineJoin_cons _ _ (by simp)]

/-- C6: the multi-row plot of height `H` emits its rows top row first and
bottom row last, newline-joined with no newline after the last row, and for
every bucket `p` and row `r` (0-indexed from the bottom) the cell is: a full
block when the continuous fill level `p/maxPeak * H` is at least `r+1`, a
fractional glyph from the 8-level ramp when `r < level < r+1`, the lowest
glyph (never a blank) at row 0 regardless of level, and blank space above the
level. -/
theorem renderPlot_spec (peaks : List Int) (height : Nat) :
    renderPlot peaks height =
      newlineJoin (((List.range height).reverse).map (fun (row : ℕ) =>
        String.mk (peaks.map (fun (p : Int) =>
          if ((row : ℚ) + 1) ≤ (p : ℚ) / ((maxPeak peaks : ℤ) : ℚ) * (height : ℚ) then '█'
          else if ((row : ℚ) < (p : ℚ) / ((maxPeak peaks : ℤ) : ℚ) * (height : ℚ) ∧
              (p : ℚ) / ((maxPeak peaks : ℤ) : ℚ) * (height : ℚ) < (row : ℚ) + 1) then
            blocksL.getD
              ⌊((p : ℚ) / ((maxPeak peaks : ℤ) : ℚ) * (height : ℚ) - (row : ℚ)) * 7⌋.toNat ' '
          else if row = 0 then '▁'
          else ' ')))) := by
  cases height with
  | zero => rfl
  | succ h =>
      show plotLoop peaks (maxPeak peaks) (h + 1) h = _
      rw [plotLoop_spec]
      congr 1
      refine List.map_congr_left ?_
      intro row _
      unfold renderRow
      congr 1
      refine List.map_congr_left ?_
      intro p _
      exact plotCell_claim (maxPeak peaks) (h + 1) row p

/-! ## C7 — full-file cache rewrite from the current directory listing -/

theorem foldl_update_lookup (toIndex : List String) (extract : String → Meta) :
    ∀ (g : String → Option Meta) (x : String),
      (toIndex.foldl (fun m f => Function.update m f (some (extract f))) g) x
        = if x ∈ toIndex then some (extract x) else g x := by
  induction toIndex with
  | nil =>
      intro g x
      simp
  | cons a t ih =>
      intro g x
      rw [List.foldl_cons, ih]
      by_cases hx : x ∈ t
      · rw [if_pos hx, if_pos (List.mem_cons_of_mem a hx)]
      · rw [if_neg hx]
        by_cases hxa : x = a
        · subst hxa
          rw [Function.update_same, if_pos (List.mem_cons_self x t)]
        · rw [Function.update_noteq hxa, if_neg (by simp [hxa, hx])]

theorem filterMap_file (l : List String) (g : String → Option Meta)
    (h : ∀ f ∈ l, ∃ mm, g f = some mm ∧ mm.file = f) :
    (l.filterMap g).map (·.file) = l := by
  induction l with
  | nil => rfl
  | cons a t ih =>
      obtain ⟨mm, hg, hf⟩ := h a (List.mem_cons_self a t)
      simp only [List.filterMap_cons, hg, List.map_cons, hf]
      rw [ih (fun f hf' => h f (List.mem_cons_of_mem a hf'))]

/-- C7, counterexample: the claim says that after *every* successful index
run the rewritten cache contains exactly the records for the audio files
currently on disk, stale entries dropped.  But `main` returns early — exit 0,
`writeCache` never called — when the selection is empty ("cache up to date"),
so the cache file keeps its stale entries.  Concretely: the cache holds
records for `a.wav` and `b.wav`, `b.wav` has been deleted from disk, the
remaining `a.wav` is already cached, incremental mode — the run succeeds
without any rewrite (`indexRun` is `none`), and the stale `b.wav` record
survives, although it is not among the listed audio files. -/
theorem indexRun_claim_counterexample :
    ((fun n => if n = "a.wav" then some (⟨"a.wav", "", "", "", "", "", ""⟩ : Meta)
               else if n = "b.wav" then some ⟨"b.wav", "", "", "", "", "", ""⟩
               else none) "b.wav").isSome = true ∧
    "b.wav" ∉ (([⟨"a.wav", false⟩] : List DirEntry).filter isAudioFile).map (·.name) ∧
    indexRun [⟨"a.wav", false⟩]
        (fun n => if n = "a.wav" then some ⟨"a.wav", "", "", "", "", "", ""⟩
                  else if n = "b.wav" then some ⟨"b.wav", "", "", "", "", "", ""⟩
                  else none)
        false (fun f => ⟨f, "", "", "", "", "", ""⟩) = none :=
  ⟨by decide, by decide, by decide⟩

/-- C7, amended: whenever the run actually rewrites the cache — at least one
audio file is listed and at least one file is selected for (re)indexing, so
`writeCache` runs (`indexRun` is `some out`) — the rewrite (`os.Create`
truncates, full-file) contains exactly one record per audio file currently
listed, in the original listing order, and cached entries whose files are no
longer on disk appear in no record (silently dropped, no tombstones).  A run
that selects nothing — no audio files, or every listed file already cached in
incremental mode — exits successfully *without* rewriting, leaving the cache
file (stale entries included) untouched; `indexRun` is `none` exactly in
those two cases.  `extract` abstracts `indexFile` (which always stores the
file's own name in the record), and the cache hypothesis reflects
`readCache`, which keys each record by its own name field. -/
theorem indexRun_amended (entries : List DirEntry) (cache : String → Option Meta)
    (force : Bool) (extract : String → Meta)
    (hex : ∀ f, (extract f).file = f)
    (hc : ∀ n mm, cache n = some mm → mm.file = n) :
    (∀ out, indexRun entries cache force extract = some out →
      out.map (·.file) = (entries.filter isAudioFile).map (·.name) ∧
      ∀ n mm, cache n = some mm → n ∉ (entries.filter isAudioFile).map (·.name) →
        ∀ m' ∈ out, m'.file ≠ n) ∧
    (indexRun entries cache force extract = none ↔
      ((entries.filter isAudioFile).map (·.name) = [] ∨
       ((entries.filter isAudioFile).map (·.name)).filter
         (fun f => force || (cache f).isNone) = [])) := by
  simp only [indexRun]
  by_cases hfiles : (entries.filter isAudioFile).map (·.name) = []
  · rw [if_pos hfiles]
    constructor
    · intro out hout
      cases hout
    · simp [hfiles]
  · rw [if_neg hfiles]
    by_cases htodo : ((entries.filter isAudioFile).map (·.name)).filter
        (fun f => force || (cache f).isNone) = []
    · rw [if_pos htodo]
      constructor
      · intro out hout
        cases hout
      · simp [htodo]
    · rw [if_neg htodo]
      have hmain : ((((entries.filter isAudioFile).map (·.name)).filterMap
          ((((entries.filter isAudioFile).map (·.name)).filter
              (fun f => force || (cache f).isNone)).foldl
            (fun m f => Function.update m f (some (extract f))) cache)).map (·.file))
          = (entries.filter isAudioFile).map (·.name) := by
        apply filterMap_file
        intro f hf
        rw [foldl_update_lookup]
        by_cases hm : f ∈ (((entries.filter isAudioFile).map (·.name)).filter
            (fun f => force || (cache f).isNone))
        · rw [if_pos hm]
          exact ⟨extract f, rfl, hex f⟩
        · rw [if_neg hm]
          have hcond : ¬ ((force || (cache f).isNone) = true) := by
            intro hcond
            exact hm (List.mem_filter.mpr ⟨hf, hcond⟩)
          cases hcf : cache f with
          | none => exact absurd (by simp [hcf]) hcond
          | some mm => exact ⟨mm, rfl, hc f mm hcf⟩
      constructor
      · intro out hout
        rw [Option.some.injEq] at hout
        rw [← hout]
        refine ⟨hmain, ?_⟩
        intro n mm hcf hnotin m' hm' heq
        apply hnotin
        rw [← hmain]
        exact List.mem_map.mpr ⟨m', hm', heq⟩
      · constructor
        · intro hnone
          cases hnone
        · intro hor
          rcases hor with h | h
          · exact absurd h hfiles
          · exact absurd h htodo

/-- C7 witness: an empty cache and a directory containing one audio file, one
subdirectory and one non-audio file — the run rewrites, and the rewrite holds
exactly the audio file's record. -/
theorem indexRun_amended_witness :
    ([(⟨"b.wav", "", "", "", "", "", ""⟩ : Meta)]).map (·.file)
      = (([⟨"b.wav", false⟩, ⟨"sub", true⟩, ⟨"a.txt", false⟩] : List DirEntry).filter
          isAudioFile).map (·.name) :=
  ((indexRun_amended [⟨"b.wav", false⟩, ⟨"sub", true⟩, ⟨"a.txt", false⟩]
      (fun _ => none) false (fun f => ⟨f, "", "", "", "", "", ""⟩)
      (fun _ => rfl) (fun n mm h => by cases h)).1
    [⟨"b.wav", "", "", "", "", "", ""⟩] (by decide)).1

end Alf
